import Mathlib

/-!
Verification of the lot-accounting engine of the finanger repository
(`src/lib/holdings.ts`): `computeHoldings`, `handleBuy`, `handleSell`,
`handleSplit` and `computeInvestedAmount`.

Embedding conventions:
* All monetary / quantity values are embedded as exact rationals `ℚ`.
  The spec fixes the numeric semantics as exact decimal arithmetic
  ("all arithmetic is decimal-valued; no rounding is applied
  mid-computation"), so `ℚ` is the faithful carrier.
* `trade_date` and `created_at` are date strings in the source, compared
  only through `new Date(s).getTime()`; we embed them directly as the
  resulting integer timestamps (`ℤ`), which is what the sort comparator
  consumes.
* Nullable numeric fields (`quantity`, `price`, `amount`) are `Option ℚ`.
  The source reads them through JavaScript truthiness defaults
  (`tx.quantity || 0`, `tx.quantity || 1`, `amount || fee`), under which
  both `null` and `0` select the default; `orZero` / `orOne` / the
  `investedDelta` fee branch reproduce exactly that.
* `Array.prototype.sort` with a consistent comparator is a stable sort
  (ES2019); a stable sort is uniquely determined by the comparator and
  the input order, so we embed it as a stable insertion sort on the
  comparator's total preorder.
* The JavaScript `Map` keeps insertion order; we embed the positions map
  as an association-ordered list of positions keyed by `asset_id`.
-/

/- Batteries marks the `Rat` field operations irreducible for elaboration
performance; concrete evaluation of the engine needs them unfolded. -/
attribute [local semireducible] Rat.add Rat.mul Rat.sub Rat.inv

namespace Finanger

/-- Transaction type tag: `'buy' | 'sell' | 'dividend' | 'fee' | 'interest' | 'split'`. -/
inductive TxType where
  | buy
  | sell
  | dividend
  | fee
  | interest
  | split
deriving DecidableEq, Repr

/-- The `Transaction` record of `holdings.ts` (plus the `amount` field that
`computeInvestedAmount` reads, listed in the spec's input record shape). -/
structure Transaction where
  id : String
  type : TxType
  asset_id : String
  quantity : Option ℚ
  price : Option ℚ
  fee : ℚ
  amount : Option ℚ
  trade_date : ℤ
  created_at : ℤ
deriving DecidableEq, Repr

/-- The engine-internal `Lot` record. -/
structure Lot where
  quantity : ℚ
  cost_per_unit : ℚ
  purchase_date : ℤ
  transaction_id : String
deriving DecidableEq, Repr

/-- The engine-internal `AssetPosition` record. -/
structure AssetPosition where
  asset_id : String
  symbol : String
  name : String
  quantity : ℚ
  avg_cost : ℚ
  cost_basis : ℚ
  realized_pnl : ℚ
  lots : List Lot
deriving DecidableEq, Repr

/-- The exported `Holding` record (a position without its lots). -/
structure Holding where
  asset_id : String
  symbol : String
  name : String
  quantity : ℚ
  avg_cost : ℚ
  cost_basis : ℚ
  realized_pnl : ℚ
deriving DecidableEq, Repr

/-- Asset metadata `{symbol, name}` supplied by the asset lookup. -/
structure AssetInfo where
  symbol : String
  name : String
deriving DecidableEq, Repr

/-- JavaScript `x || 0` on a nullable number: both `null` and `0` give `0`. -/
def orZero (o : Option ℚ) : ℚ :=
  match o with
  | none => 0
  | some q => q

/-- JavaScript `x || 1` on a nullable number: both `null` and `0` give `1`. -/
def orOne (o : Option ℚ) : ℚ :=
  match o with
  | none => 1
  | some q => if q = 0 then 1 else q

/-- `handleBuy`: append a new lot at `cost_per_unit = price + fee/quantity`
and update the position totals. -/
def handleBuy (position : AssetPosition) (tx : Transaction) : AssetPosition :=
  let quantity := orZero tx.quantity
  let price := orZero tx.price
  let fee := tx.fee
  let costPerUnit := price + fee / quantity
  let newQuantity := position.quantity + quantity
  let newCostBasis := position.cost_basis + quantity * costPerUnit
  { position with
    lots := position.lots ++ [⟨quantity, costPerUnit, tx.trade_date, tx.id⟩],
    quantity := newQuantity,
    cost_basis := newCostBasis,
    avg_cost := newCostBasis / newQuantity }

/-- The FIFO consumption loop of `handleSell`: given `remainingToSell` and the
lot queue, return `(remainingToSell, totalCost, lots)` after the `while` loop. -/
def consumeLots (remainingToSell : ℚ) : List Lot → ℚ × ℚ × List Lot
  | [] => (remainingToSell, 0, [])
  | lot :: rest =>
    if remainingToSell ≤ 0 then (remainingToSell, 0, lot :: rest)
    else if lot.quantity ≤ remainingToSell then
      let r := consumeLots (remainingToSell - lot.quantity) rest
      (r.1, lot.quantity * lot.cost_per_unit + r.2.1, r.2.2)
    else
      (0, remainingToSell * lot.cost_per_unit,
        { lot with quantity := lot.quantity - remainingToSell } :: rest)

/-- The `soldQuantity` local of `handleSell`: requested minus unsatisfied remainder. -/
def soldQuantityOf (position : AssetPosition) (tx : Transaction) : ℚ :=
  orZero tx.quantity - (consumeLots (orZero tx.quantity) position.lots).1

/-- `handleSell`: consume lots FIFO, then update totals and realized P&L. -/
def handleSell (position : AssetPosition) (tx : Transaction) : AssetPosition :=
  let sellPrice := orZero tx.price
  let fee := tx.fee
  let r := consumeLots (orZero tx.quantity) position.lots
  let totalCost := r.2.1
  let soldQuantity := orZero tx.quantity - r.1
  let proceeds := soldQuantity * sellPrice - fee
  let newQuantity := position.quantity - soldQuantity
  let newCostBasis := position.cost_basis - totalCost
  { position with
    lots := r.2.2,
    quantity := newQuantity,
    cost_basis := newCostBasis,
    avg_cost := if 0 < newQuantity then newCostBasis / newQuantity else 0,
    realized_pnl := position.realized_pnl + (proceeds - totalCost) }

/-- `handleSplit`: scale every lot by the ratio (`tx.quantity || 1`),
scale the position quantity, recompute `avg_cost` from the untouched
`cost_basis`. -/
def handleSplit (position : AssetPosition) (tx : Transaction) : AssetPosition :=
  let splitRatio := orOne tx.quantity
  let newQuantity := position.quantity * splitRatio
  { position with
    lots := position.lots.map fun lot =>
      { lot with
        quantity := lot.quantity * splitRatio,
        cost_per_unit := lot.cost_per_unit / splitRatio },
    quantity := newQuantity,
    avg_cost := position.cost_basis / newQuantity }

/-- The `switch (tx.type)` dispatch of the fold body: buy/sell/split mutate the
position, the other types leave it unchanged. -/
def applyToPosition (tx : Transaction) (position : AssetPosition) : AssetPosition :=
  match tx.type with
  | .buy => handleBuy position tx
  | .sell => handleSell position tx
  | .split => handleSplit position tx
  | _ => position

/-- A freshly created position, seeded with the asset metadata. -/
def newPosition (aid : String) (a : AssetInfo) : AssetPosition :=
  ⟨aid, a.symbol, a.name, 0, 0, 0, 0, []⟩

/-- The asset lookup `assets.get`, on an association list. -/
def lookupAsset (assets : List (String × AssetInfo)) (aid : String) : Option AssetInfo :=
  (assets.find? fun e => e.1 == aid).map Prod.snd

/-- One iteration of the `for (const tx of sortedTx)` loop: skip empty
`asset_id`, fetch or lazily create the position (skipping unknown assets),
then dispatch on the transaction type. -/
def applyTx (assets : List (String × AssetInfo))
    (positions : List AssetPosition) (tx : Transaction) : List AssetPosition :=
  if tx.asset_id = "" then positions
  else if (positions.find? fun p => p.asset_id == tx.asset_id).isSome then
    positions.map fun p =>
      if p.asset_id == tx.asset_id then applyToPosition tx p else p
  else
    match lookupAsset assets tx.asset_id with
    | none => positions
    | some a => positions ++ [applyToPosition tx (newPosition tx.asset_id a)]

/-- The sort comparator of `computeHoldings` as a total preorder: ascending
`trade_date`, then ascending `created_at`. -/
def txLe (a b : Transaction) : Bool :=
  a.trade_date < b.trade_date ||
    (a.trade_date == b.trade_date && a.created_at ≤ b.created_at)

/-- Stable insertion of a transaction in front of every transaction it is
`txLe`-below or tied with. -/
def insertTx (t : Transaction) : List Transaction → List Transaction
  | [] => [t]
  | u :: us => if txLe t u then t :: u :: us else u :: insertTx t us

/-- The stable sort `[...transactions].sort(comparator)` of `computeHoldings`
(ES2019 `Array.prototype.sort` is stable, which determines it uniquely). -/
def sortTx (l : List Transaction) : List Transaction :=
  l.foldr insertTx []

/-- The fold of `computeHoldings` over the sorted transactions, producing the
internal positions map (in insertion order). -/
def replay (assets : List (String × AssetInfo)) (txs : List Transaction) :
    List AssetPosition :=
  (sortTx txs).foldl (applyTx assets) []

/-- Projection of an internal position to an exported holding. -/
def toHolding (p : AssetPosition) : Holding :=
  ⟨p.asset_id, p.symbol, p.name, p.quantity, p.avg_cost, p.cost_basis, p.realized_pnl⟩

/-- `computeHoldings`: sort, fold, filter open positions, project. -/
def computeHoldings (transactions : List Transaction)
    (assets : List (String × AssetInfo)) : List Holding :=
  ((replay assets transactions).filter fun p => decide (0 < p.quantity)).map toHolding

/-- Per-transaction contribution of `computeInvestedAmount`; the `fee` branch
is `amount || fee` where `amount` is already `tx.amount || 0`. -/
def investedDelta (tx : Transaction) : ℚ :=
  let quantity := orZero tx.quantity
  let price := orZero tx.price
  let amount := orZero tx.amount
  let fee := tx.fee
  match tx.type with
  | .buy => quantity * price + fee
  | .sell => -(quantity * price - fee)
  | .fee => if amount = 0 then fee else amount
  | _ => 0

/-- `computeInvestedAmount`: the running-total loop over the unsorted list. -/
def computeInvestedAmount (transactions : List Transaction) : ℚ :=
  transactions.foldl (fun invested tx => invested + investedDelta tx) 0

/-- Shorthand: a buy transaction. -/
def mkBuy (i : String) (aid : String) (q p fee : ℚ) (d c : ℤ) : Transaction :=
  ⟨i, .buy, aid, some q, some p, fee, none, d, c⟩

/-- Shorthand: a sell transaction. -/
def mkSell (i : String) (aid : String) (q p fee : ℚ) (d c : ℤ) : Transaction :=
  ⟨i, .sell, aid, some q, some p, fee, none, d, c⟩

/-- The one-asset lookup used by the concrete scenarios. -/
def assetsA : List (String × AssetInfo) := [("A", ⟨"AAA", "Asset A"⟩)]

/-- Total quantity across a lot list. -/
def sumQ (lots : List Lot) : ℚ :=
  (lots.map Lot.quantity).sum

/-- Total cost (quantity times cost per unit) across a lot list. -/
def sumC (lots : List Lot) : ℚ :=
  (lots.map fun l => l.quantity * l.cost_per_unit).sum

/-- The position totals invariant: `quantity` and `cost_basis` agree with the
lot list. -/
def wfPosition (p : AssetPosition) : Prop :=
  p.quantity = sumQ p.lots ∧ p.cost_basis = sumC p.lots

theorem sumQ_nil : sumQ [] = 0 := rfl

theorem sumQ_cons (l : Lot) (ls : List Lot) : sumQ (l :: ls) = l.quantity + sumQ ls := by
  simp [sumQ]

theorem sumQ_append (a b : List Lot) : sumQ (a ++ b) = sumQ a + sumQ b := by
  simp [sumQ]

theorem sumC_nil : sumC [] = 0 := rfl

theorem sumC_cons (l : Lot) (ls : List Lot) :
    sumC (l :: ls) = l.quantity * l.cost_per_unit + sumC ls := by
  simp [sumC]

theorem sumC_append (a b : List Lot) : sumC (a ++ b) = sumC a + sumC b := by
  simp [sumC]

/-- The FIFO loop accounts exactly: the surviving lots carry the original
total quantity minus what was consumed, and the original total cost minus
`totalCost`. -/
theorem consumeLots_sum (lots : List Lot) (r : ℚ) :
    sumQ (consumeLots r lots).2.2 = sumQ lots - (r - (consumeLots r lots).1) ∧
    sumC (consumeLots r lots).2.2 = sumC lots - (consumeLots r lots).2.1 := by
  induction lots generalizing r with
  | nil => simp [consumeLots]
  | cons lot rest ih =>
    by_cases h1 : r ≤ 0
    · simp [consumeLots, h1]
    · by_cases h2 : lot.quantity ≤ r
      · have h3 := ih (r - lot.quantity)
        simp only [consumeLots, if_neg h1, if_pos h2, sumQ_cons, sumC_cons]
        constructor
        · rw [h3.1]; ring
        · rw [h3.2]; ring
      · simp only [consumeLots, if_neg h1, if_neg h2, sumQ_cons, sumC_cons]
        constructor
        · ring_nf
        · ring_nf

theorem handleBuy_wf (p : AssetPosition) (tx : Transaction) (h : wfPosition p) :
    wfPosition (handleBuy p tx) := by
  obtain ⟨h1, h2⟩ := h
  constructor
  · simp [handleBuy, sumQ_append, sumQ_cons, sumQ_nil, h1]
  · simp [handleBuy, sumC_append, sumC_cons, sumC_nil, h2]

theorem handleSell_wf (p : AssetPosition) (tx : Transaction) (h : wfPosition p) :
    wfPosition (handleSell p tx) := by
  obtain ⟨h1, h2⟩ := h
  have hs := consumeLots_sum p.lots (orZero tx.quantity)
  constructor
  · simp only [handleSell]
    rw [hs.1, h1]
  · simp only [handleSell]
    rw [hs.2, h2]

theorem orOne_ne_zero (o : Option ℚ) : orOne o ≠ 0 := by
  cases o with
  | none => simp [orOne]
  | some q =>
    by_cases h : q = 0
    · simp [orOne, h]
    · simp [orOne, h]

theorem sumQ_map_scale (lots : List Lot) (r : ℚ) :
    sumQ (lots.map fun lot =>
        { lot with quantity := lot.quantity * r, cost_per_unit := lot.cost_per_unit / r }) =
      sumQ lots * r := by
  induction lots with
  | nil => simp [sumQ]
  | cons lot rest ih => simp [sumQ_cons, ih]; ring

theorem sumC_map_scale (lots : List Lot) (r : ℚ) (hr : r ≠ 0) :
    sumC (lots.map fun lot =>
        { lot with quantity := lot.quantity * r, cost_per_unit := lot.cost_per_unit / r }) =
      sumC lots := by
  induction lots with
  | nil => simp [sumC]
  | cons lot rest ih =>
    simp only [List.map_cons, sumC_cons, ih]
    field_simp
    ring

theorem handleSplit_wf (p : AssetPosition) (tx : Transaction) (h : wfPosition p) :
    wfPosition (handleSplit p tx) := by
  obtain ⟨h1, h2⟩ := h
  constructor
  · simp only [handleSplit, sumQ_map_scale, h1]
  · simp only [handleSplit, sumC_map_scale _ _ (orOne_ne_zero tx.quantity), h2]

theorem applyToPosition_wf (tx : Transaction) (p : AssetPosition) (h : wfPosition p) :
    wfPosition (applyToPosition tx p) := by
  unfold applyToPosition
  cases tx.type
  case buy => exact handleBuy_wf p tx h
  case sell => exact handleSell_wf p tx h
  case split => exact handleSplit_wf p tx h
  all_goals exact h

theorem newPosition_wf (aid : String) (a : AssetInfo) : wfPosition (newPosition aid a) := by
  constructor <;> rfl

theorem applyTx_wf (assets : List (String × AssetInfo)) (positions : List AssetPosition)
    (tx : Transaction) (h : ∀ p ∈ positions, wfPosition p) :
    ∀ p ∈ applyTx assets positions tx, wfPosition p := by
  intro p hp
  unfold applyTx at hp
  split at hp
  · exact h p hp
  · split at hp
    · obtain ⟨q, hq, rfl⟩ := List.mem_map.mp hp
      by_cases hqid : (q.asset_id == tx.asset_id) = true
      · simpa [hqid] using applyToPosition_wf tx q (h q hq)
      · simpa [hqid] using h q hq
    · split at hp
      · exact h p hp
      · rcases List.mem_append.mp hp with hmem | hmem
        · exact h p hmem
        · rcases List.mem_singleton.mp hmem with rfl
          exact applyToPosition_wf tx _ (newPosition_wf _ _)

theorem foldl_applyTx_wf (assets : List (String × AssetInfo)) (l : List Transaction)
    (state : List AssetPosition) (h : ∀ p ∈ state, wfPosition p) :
    ∀ p ∈ l.foldl (applyTx assets) state, wfPosition p := by
  induction l generalizing state with
  | nil => simpa using h
  | cons tx rest ih =>
    intro p hp
    exact ih (applyTx assets state tx) (applyTx_wf assets state tx h) p hp

theorem sumQ_nonneg (lots : List Lot) (h : ∀ l ∈ lots, 0 < l.quantity) :
    0 ≤ sumQ lots := by
  induction lots with
  | nil => simp [sumQ_nil]
  | cons lot rest ih =>
    have h1 : 0 < lot.quantity := h lot (by simp)
    have h2 : 0 ≤ sumQ rest := ih fun l hl => h l (by simp [hl])
    rw [sumQ_cons]
    linarith

/-- When the requested sell quantity exceeds the (positive) lots on hand, the
FIFO loop consumes every lot and stops with the shortfall as remainder. -/
theorem consumeLots_oversell (lots : List Lot) (r : ℚ)
    (hpos : ∀ l ∈ lots, 0 < l.quantity) (hover : sumQ lots < r) :
    consumeLots r lots = (r - sumQ lots, sumC lots, []) := by
  induction lots generalizing r with
  | nil => simp [consumeLots, sumQ_nil, sumC_nil]
  | cons lot rest ih =>
    have hlot : 0 < lot.quantity := hpos lot (by simp)
    have hrest : ∀ l ∈ rest, 0 < l.quantity := fun l hl => hpos l (by simp [hl])
    have hsq : 0 ≤ sumQ rest := sumQ_nonneg rest hrest
    rw [sumQ_cons] at hover
    have h1 : ¬ r ≤ 0 := by linarith
    have h2 : lot.quantity ≤ r := by linarith
    simp only [consumeLots, if_neg h1, if_pos h2]
    rw [ih (r - lot.quantity) hrest (by linarith)]
    rw [sumQ_cons, sumC_cons]
    refine Prod.ext ?_ (Prod.ext ?_ rfl)
    · simp; ring
    · simp

/-- A sell request of at most zero (in particular, an absent or zero
quantity) leaves the lot queue untouched and consumes nothing. -/
theorem consumeLots_nonpos (lots : List Lot) (r : ℚ) (hr : r ≤ 0) :
    consumeLots r lots = (r, 0, lots) := by
  cases lots with
  | nil => simp [consumeLots]
  | cons lot rest => simp [consumeLots, hr]

/-- A transaction the engine can resolve: a nonempty `asset_id` that the
asset lookup knows. -/
def txResolvable (assets : List (String × AssetInfo)) (tx : Transaction) : Bool :=
  !(tx.asset_id == "") && (lookupAsset assets tx.asset_id).isSome

theorem txLe_total (a b : Transaction) : txLe a b = true ∨ txLe b a = true := by
  simp only [txLe, Bool.or_eq_true, Bool.and_eq_true, decide_eq_true_eq, beq_iff_eq]
  omega

theorem txLe_trans (a b c : Transaction) (h1 : txLe a b = true) (h2 : txLe b c = true) :
    txLe a c = true := by
  simp only [txLe, Bool.or_eq_true, Bool.and_eq_true, decide_eq_true_eq, beq_iff_eq] at *
  omega

theorem mem_insertTx (t : Transaction) (l : List Transaction) (x : Transaction) :
    x ∈ insertTx t l ↔ x = t ∨ x ∈ l := by
  induction l with
  | nil => simp [insertTx]
  | cons u us ih =>
    by_cases h : txLe t u
    · simp [insertTx, h]
    · simp [insertTx, h, ih]
      tauto

theorem insertTx_of_forall_le (t : Transaction) (l : List Transaction)
    (h : ∀ v ∈ l, txLe t v = true) : insertTx t l = t :: l := by
  cases l with
  | nil => rfl
  | cons u us => simp [insertTx, h u (by simp)]

theorem sorted_insertTx (t : Transaction) (l : List Transaction)
    (h : l.Pairwise fun a b => txLe a b = true) :
    (insertTx t l).Pairwise fun a b => txLe a b = true := by
  induction l with
  | nil => simp [insertTx]
  | cons u us ih =>
    rw [List.pairwise_cons] at h
    by_cases htu : txLe t u
    · simp only [insertTx, if_pos htu]
      refine List.Pairwise.cons ?_ (List.Pairwise.cons h.1 h.2)
      intro v hv
      rcases List.mem_cons.mp hv with rfl | hv
      · exact htu
      · exact txLe_trans t u v htu (h.1 v hv)
    · simp only [insertTx, if_neg htu]
      refine List.Pairwise.cons ?_ (ih h.2)
      intro v hv
      rcases (mem_insertTx t us v).mp hv with heq | hv
      · rw [heq]
        rcases txLe_total t u with hl | hl
        · exact absurd hl htu
        · exact hl
      · exact h.1 v hv

theorem filter_insertTx (p : Transaction → Bool) (t : Transaction) (l : List Transaction)
    (h : l.Pairwise fun a b => txLe a b = true) :
    (insertTx t l).filter p = if p t then insertTx t (l.filter p) else l.filter p := by
  induction l with
  | nil =>
    by_cases hpt : p t <;> simp [insertTx, List.filter_cons, hpt]
  | cons u us ih =>
    rw [List.pairwise_cons] at h
    have ihr := ih h.2
    by_cases htu : txLe t u
    · have e1 : insertTx t (u :: us) = t :: u :: us := by simp [insertTx, htu]
      by_cases hpt : p t
      · have hall : ∀ v ∈ (u :: us).filter p, txLe t v = true := by
          intro v hv
          rcases List.mem_cons.mp (List.mem_of_mem_filter hv) with heq | hv2
          · rw [heq]; exact htu
          · exact txLe_trans t u v htu (h.1 v hv2)
        rw [e1, insertTx_of_forall_le t ((u :: us).filter p) hall]
        simp [List.filter_cons, hpt]
      · rw [e1]
        simp [List.filter_cons, hpt]
    · have e1 : insertTx t (u :: us) = u :: insertTx t us := by simp [insertTx, htu]
      have e2 : insertTx t (u :: us.filter p) = u :: insertTx t (us.filter p) := by
        simp [insertTx, htu]
      by_cases hpu : p u <;> by_cases hpt : p t <;>
        simp [e1, List.filter_cons, hpu, hpt, ihr, e2]

theorem sorted_sortTx (l : List Transaction) :
    (sortTx l).Pairwise fun a b => txLe a b = true := by
  induction l with
  | nil => simp [sortTx]
  | cons x xs ih => exact sorted_insertTx x (sortTx xs) ih

theorem sortTx_filter (p : Transaction → Bool) (l : List Transaction) :
    sortTx (l.filter p) = (sortTx l).filter p := by
  induction l with
  | nil => rfl
  | cons x xs ih =>
    show sortTx ((x :: xs).filter p) = (insertTx x (sortTx xs)).filter p
    rw [filter_insertTx p x (sortTx xs) (sorted_sortTx xs), List.filter_cons]
    by_cases hpx : p x
    · simp only [hpx, if_pos]
      show insertTx x (sortTx (xs.filter p)) = insertTx x ((sortTx xs).filter p)
      rw [ih]
    · simpa [hpx] using ih

/-- Every position the engine tracks names a resolvable asset. -/
def posResolvable (assets : List (String × AssetInfo)) (positions : List AssetPosition) :
    Prop :=
  ∀ p ∈ positions, p.asset_id ≠ "" ∧ (lookupAsset assets p.asset_id).isSome = true

theorem applyToPosition_asset_id (tx : Transaction) (p : AssetPosition) :
    (applyToPosition tx p).asset_id = p.asset_id := by
  unfold applyToPosition
  cases tx.type <;> rfl

theorem applyTx_posResolvable (assets : List (String × AssetInfo))
    (positions : List AssetPosition) (tx : Transaction)
    (h : posResolvable assets positions) :
    posResolvable assets (applyTx assets positions tx) := by
  intro p hp
  unfold applyTx at hp
  by_cases haid : tx.asset_id = ""
  · rw [if_pos haid] at hp
    exact h p hp
  · rw [if_neg haid] at hp
    by_cases hfind : (positions.find? fun q => q.asset_id == tx.asset_id).isSome = true
    · rw [if_pos hfind] at hp
      obtain ⟨q, hq, rfl⟩ := List.mem_map.mp hp
      by_cases hqid : (q.asset_id == tx.asset_id) = true
      · rw [if_pos hqid, applyToPosition_asset_id]
        exact h q hq
      · rw [if_neg hqid]
        exact h q hq
    · rw [if_neg hfind] at hp
      rcases hlook : lookupAsset assets tx.asset_id with _ | a
      · rw [hlook] at hp
        exact h p hp
      · rw [hlook] at hp
        rcases List.mem_append.mp hp with hmem | hmem
        · exact h p hmem
        · rcases List.mem_singleton.mp hmem with rfl
          rw [applyToPosition_asset_id]
          refine ⟨haid, ?_⟩
          show (lookupAsset assets tx.asset_id).isSome = true
          rw [hlook]
          rfl

theorem applyTx_skip_unresolvable (assets : List (String × AssetInfo))
    (positions : List AssetPosition) (tx : Transaction)
    (htx : txResolvable assets tx = false)
    (h : posResolvable assets positions) :
    applyTx assets positions tx = positions := by
  rw [txResolvable, Bool.and_eq_false_iff] at htx
  rcases htx with htx | htx
  · have haid : tx.asset_id = "" := by
      simpa using htx
    simp [applyTx, haid]
  · have hlook : lookupAsset assets tx.asset_id = none := by
      rcases hopt : lookupAsset assets tx.asset_id with _ | a
      · rfl
      · rw [hopt] at htx; simp at htx
    have hfind : (positions.find? fun q => q.asset_id == tx.asset_id) = none := by
      rcases hf : positions.find? fun q => q.asset_id == tx.asset_id with _ | q
      · exact hf
      · have hmem := List.mem_of_find?_eq_some hf
        have hbeq := List.find?_some hf
        have hsome := (h q hmem).2
        simp only [beq_iff_eq] at hbeq
        rw [hbeq, hlook] at hsome
        simp at hsome
    by_cases haid : tx.asset_id = ""
    · simp [applyTx, haid]
    · simp [applyTx, haid, hfind, hlook]

theorem foldl_applyTx_filter_resolvable (assets : List (String × AssetInfo))
    (l : List Transaction) (state : List AssetPosition)
    (h : posResolvable assets state) :
    l.foldl (applyTx assets) state =
      (l.filter (txResolvable assets)).foldl (applyTx assets) state := by
  induction l generalizing state with
  | nil => rfl
  | cons tx rest ih =>
    rcases htx : txResolvable assets tx with _ | _
    · rw [List.filter_cons, htx]
      simp only [List.foldl_cons, Bool.false_eq_true, if_false]
      rw [applyTx_skip_unresolvable assets state tx htx h]
      exact ih state h
    · rw [List.filter_cons, htx]
      simp only [List.foldl_cons, if_true]
      exact ih (applyTx assets state tx) (applyTx_posResolvable assets state tx h)

theorem foldl_applyTx_posResolvable (assets : List (String × AssetInfo))
    (l : List Transaction) (state : List AssetPosition)
    (h : posResolvable assets state) :
    posResolvable assets (l.foldl (applyTx assets) state) := by
  induction l generalizing state with
  | nil => exact h
  | cons tx rest ih =>
    exact ih (applyTx assets state tx) (applyTx_posResolvable assets state tx h)

end Finanger

namespace Finanger

/-- Claim C1: with buys of 10 units at price 100 and then 10 units at price
200 (fee 0, increasing dates) followed by a sell of 12 units, the FIFO loop
consumes cost 10*100 + 2*200 = 1400 from the oldest lots first, and the
resulting holding has quantity 8, cost_basis 1600 and avg_cost 200 (the
realized P&L 12*150 - 1400 = 400 witnesses the consumed cost at sell
price 150). -/
theorem C1_fifo_consumes_oldest_lots_first :
    (replay assetsA [mkBuy "t1" "A" 10 100 0 0 0, mkBuy "t2" "A" 10 200 0 1 1]).map
        AssetPosition.lots = [[⟨10, 100, 0, "t1"⟩, ⟨10, 200, 1, "t2"⟩]] ∧
    (consumeLots 12 [⟨10, 100, 0, "t1"⟩, ⟨10, 200, 1, "t2"⟩]).2.1 = 1400 ∧
    computeHoldings
        [mkBuy "t1" "A" 10 100 0 0 0, mkBuy "t2" "A" 10 200 0 1 1,
          mkSell "t3" "A" 12 150 0 2 2] assetsA =
      [⟨"A", "AAA", "Asset A", 8, 200, 1600, 400⟩] := by
  refine ⟨by decide, by decide, by decide⟩

/-- Claim C2: throughout the fold of `computeHoldings` (that is, after every
prefix of the sorted transaction list has been applied), every tracked
position's `quantity` is the sum of its lots' quantities and its
`cost_basis` is the sum of `quantity * cost_per_unit` over its lots. -/
theorem C2_totals_agree_with_lots_after_every_transaction
    (assets : List (String × AssetInfo)) (txs : List Transaction) (n : ℕ)
    (p : AssetPosition) (hp : p ∈ ((sortTx txs).take n).foldl (applyTx assets) []) :
    p.quantity = sumQ p.lots ∧ p.cost_basis = sumC p.lots :=
  foldl_applyTx_wf assets ((sortTx txs).take n) [] (by simp) p hp

/-- Witness for C2 at a concrete one-buy prefix. -/
theorem C2_totals_agree_with_lots_after_every_transaction_witness :
    (⟨"A", "AAA", "Asset A", 10, 100, 1000, 0, [⟨10, 100, 0, "t1"⟩]⟩ : AssetPosition) ∈
        ((sortTx [mkBuy "t1" "A" 10 100 0 0 0]).take 1).foldl (applyTx assetsA) [] ∧
      ((⟨"A", "AAA", "Asset A", 10, 100, 1000, 0, [⟨10, 100, 0, "t1"⟩]⟩ :
            AssetPosition).quantity =
          sumQ [⟨10, 100, 0, "t1"⟩] ∧
        (⟨"A", "AAA", "Asset A", 10, 100, 1000, 0, [⟨10, 100, 0, "t1"⟩]⟩ :
              AssetPosition).cost_basis =
          sumC [⟨10, 100, 0, "t1"⟩]) :=
  ⟨by decide,
    C2_totals_agree_with_lots_after_every_transaction assetsA
      [mkBuy "t1" "A" 10 100 0 0 0] 1 _ (by decide)⟩

/-- Claim C3: a sell whose quantity exceeds the total (positive) quantity held
across the position's lots raises no error; it sells only what is available
(`soldQuantity` equals the previously held quantity), empties the lot queue,
and leaves the position quantity at exactly 0, never negative. -/
theorem C3_oversell_caps_at_available_quantity
    (p : AssetPosition) (tx : Transaction)
    (hty : tx.type = TxType.sell)
    (hpos : ∀ l ∈ p.lots, 0 < l.quantity)
    (hq : p.quantity = sumQ p.lots)
    (hover : sumQ p.lots < orZero tx.quantity) :
    soldQuantityOf p tx = p.quantity ∧
    (applyToPosition tx p).quantity = 0 ∧
    (applyToPosition tx p).lots = [] := by
  have hc := consumeLots_oversell p.lots (orZero tx.quantity) hpos hover
  unfold applyToPosition
  rw [hty]
  refine ⟨?_, ?_, ?_⟩
  · simp only [soldQuantityOf, hc, hq]
    ring
  · simp only [handleSell, hc, hq]
    ring
  · simp only [handleSell, hc]

/-- Witness for C3: selling 15 when one lot of 10 is held sells exactly 10
and closes the position. -/
theorem C3_oversell_caps_at_available_quantity_witness :
    (∀ l ∈ [(⟨10, 100, 0, "t1"⟩ : Lot)], 0 < l.quantity) ∧
      sumQ [⟨10, 100, 0, "t1"⟩] < orZero (mkSell "s" "A" 15 150 0 1 1).quantity ∧
      (soldQuantityOf ⟨"A", "AAA", "Asset A", 10, 100, 1000, 0, [⟨10, 100, 0, "t1"⟩]⟩
            (mkSell "s" "A" 15 150 0 1 1) =
          (⟨"A", "AAA", "Asset A", 10, 100, 1000, 0, [⟨10, 100, 0, "t1"⟩]⟩ :
              AssetPosition).quantity ∧
        (applyToPosition (mkSell "s" "A" 15 150 0 1 1)
              ⟨"A", "AAA", "Asset A", 10, 100, 1000, 0, [⟨10, 100, 0, "t1"⟩]⟩).quantity = 0 ∧
        (applyToPosition (mkSell "s" "A" 15 150 0 1 1)
              ⟨"A", "AAA", "Asset A", 10, 100, 1000, 0, [⟨10, 100, 0, "t1"⟩]⟩).lots = []) :=
  ⟨by decide, by decide,
    C3_oversell_caps_at_available_quantity _ _ rfl (by decide) (by decide) (by decide)⟩

/-- Claim C4: a split with ratio `r = tx.quantity || 1` multiplies every lot
quantity by `r`, divides every lot cost per unit by `r`, multiplies the
position quantity by `r`, leaves `cost_basis` unchanged (both the stored
field and the lot-sum it tracks), and sets `avg_cost = cost_basis / new
quantity`; the defaulted ratio is never zero, so the per-lot division is
never a division by zero, and an absent or zero `quantity` field gives the
identity ratio 1. -/
theorem C4_split_scales_lots_and_preserves_cost_basis
    (p : AssetPosition) (tx : Transaction) (hty : tx.type = TxType.split) :
    orOne tx.quantity ≠ 0 ∧
    (applyToPosition tx p).lots =
      p.lots.map (fun lot =>
        ⟨lot.quantity * orOne tx.quantity, lot.cost_per_unit / orOne tx.quantity,
          lot.purchase_date, lot.transaction_id⟩) ∧
    (applyToPosition tx p).quantity = p.quantity * orOne tx.quantity ∧
    (applyToPosition tx p).cost_basis = p.cost_basis ∧
    (applyToPosition tx p).avg_cost = p.cost_basis / (p.quantity * orOne tx.quantity) ∧
    sumC (applyToPosition tx p).lots = sumC p.lots ∧
    ((tx.quantity = none ∨ tx.quantity = some 0) →
      orOne tx.quantity = 1 ∧
      (applyToPosition tx p).lots = p.lots ∧
      (applyToPosition tx p).quantity = p.quantity) := by
  unfold applyToPosition
  rw [hty]
  refine ⟨orOne_ne_zero tx.quantity, rfl, rfl, rfl, rfl, ?_, ?_⟩
  · simpa [handleSplit] using
      sumC_map_scale p.lots (orOne tx.quantity) (orOne_ne_zero tx.quantity)
  · intro h
    have hr1 : orOne tx.quantity = 1 := by
      rcases h with h | h <;> simp [orOne, h]
    refine ⟨hr1, ?_, ?_⟩
    · simp [handleSplit, hr1]
    · simp [handleSplit, hr1]

/-- Witness for C4 at a concrete 2-for-1 split of one lot. -/
theorem C4_split_scales_lots_and_preserves_cost_basis_witness :
    orOne (some (2 : ℚ)) ≠ 0 ∧
    (applyToPosition (⟨"sp", TxType.split, "A", some 2, none, 0, none, 1, 1⟩ : Transaction)
          ⟨"A", "AAA", "Asset A", 10, 100, 1000, 0, [⟨10, 100, 0, "t1"⟩]⟩).lots =
      [(⟨10, 100, 0, "t1"⟩ : Lot)].map (fun lot =>
        ⟨lot.quantity * orOne (some (2 : ℚ)), lot.cost_per_unit / orOne (some (2 : ℚ)),
          lot.purchase_date, lot.transaction_id⟩) ∧
    (applyToPosition (⟨"sp", TxType.split, "A", some 2, none, 0, none, 1, 1⟩ : Transaction)
          ⟨"A", "AAA", "Asset A", 10, 100, 1000, 0, [⟨10, 100, 0, "t1"⟩]⟩).quantity =
      10 * orOne (some (2 : ℚ)) ∧
    (applyToPosition (⟨"sp", TxType.split, "A", some 2, none, 0, none, 1, 1⟩ : Transaction)
          ⟨"A", "AAA", "Asset A", 10, 100, 1000, 0, [⟨10, 100, 0, "t1"⟩]⟩).cost_basis = 1000 ∧
    sumC (applyToPosition (⟨"sp", TxType.split, "A", some 2, none, 0, none, 1, 1⟩ : Transaction)
          ⟨"A", "AAA", "Asset A", 10, 100, 1000, 0, [⟨10, 100, 0, "t1"⟩]⟩).lots =
      sumC [⟨10, 100, 0, "t1"⟩] := by
  have h := C4_split_scales_lots_and_preserves_cost_basis
    ⟨"A", "AAA", "Asset A", 10, 100, 1000, 0, [⟨10, 100, 0, "t1"⟩]⟩
    (⟨"sp", TxType.split, "A", some 2, none, 0, none, 1, 1⟩ : Transaction) rfl
  exact ⟨h.1, h.2.1, h.2.2.1, h.2.2.2.1, h.2.2.2.2.2.1⟩

/-- Claim C5 counterexample: a buy with negative quantity is not a no-op.
Appending a buy of -5 units at price 200 changes the holdings that
`computeHoldings` reports (quantity drops from 10 to 5 and cost_basis from
1000 to 0), so the claimed before/after equality fails. -/
theorem C5_counterexample_negative_buy_changes_position :
    computeHoldings
        [mkBuy "t1" "A" 10 100 0 0 0, mkBuy "t2" "A" (-5) 200 0 1 1] assetsA ≠
      computeHoldings [mkBuy "t1" "A" 10 100 0 0 0] assetsA := by
  decide

/-- Claim C5 (amended): `handleBuy` applies the same formula to a buy with
quantity ≤ 0 as to any other buy: it appends a lot carrying that quantity and
`cost_per_unit = price + fee/quantity`, and adds `quantity` and
`quantity * cost_per_unit` to the position totals. It is therefore not a
no-op: a negative quantity shifts quantity and cost basis, and even a
zero-quantity buy (whose totals are unchanged in exact arithmetic) still
appends a zero-quantity lot, with the division `fee/quantity` performed
unconditionally. Realized P&L is untouched. -/
theorem C5_amended_nonpositive_buy_not_noop
    (p : AssetPosition) (tx : Transaction)
    (hty : tx.type = TxType.buy) (_hq : orZero tx.quantity ≤ 0) :
    (applyToPosition tx p).lots =
      p.lots ++ [⟨orZero tx.quantity, orZero tx.price + tx.fee / orZero tx.quantity,
        tx.trade_date, tx.id⟩] ∧
    (applyToPosition tx p).quantity = p.quantity + orZero tx.quantity ∧
    (applyToPosition tx p).cost_basis =
      p.cost_basis + orZero tx.quantity * (orZero tx.price + tx.fee / orZero tx.quantity) ∧
    (applyToPosition tx p).realized_pnl = p.realized_pnl ∧
    (orZero tx.quantity = 0 →
      (applyToPosition tx p).quantity = p.quantity ∧
      (applyToPosition tx p).cost_basis = p.cost_basis) := by
  unfold applyToPosition
  rw [hty]
  refine ⟨rfl, rfl, rfl, rfl, fun h0 => ⟨?_, ?_⟩⟩
  · simp [handleBuy, h0]
  · simp [handleBuy, h0]

/-- Witness for C5 (amended) at a concrete buy of -5 units. -/
theorem C5_amended_nonpositive_buy_not_noop_witness :
    orZero (mkBuy "t2" "A" (-5) 200 0 1 1).quantity ≤ 0 ∧
    ((applyToPosition (mkBuy "t2" "A" (-5) 200 0 1 1)
          ⟨"A", "AAA", "Asset A", 10, 100, 1000, 0, [⟨10, 100, 0, "t1"⟩]⟩).quantity =
        10 + orZero (mkBuy "t2" "A" (-5) 200 0 1 1).quantity ∧
      (applyToPosition (mkBuy "t2" "A" (-5) 200 0 1 1)
          ⟨"A", "AAA", "Asset A", 10, 100, 1000, 0, [⟨10, 100, 0, "t1"⟩]⟩).realized_pnl = 0) := by
  have h := C5_amended_nonpositive_buy_not_noop
    ⟨"A", "AAA", "Asset A", 10, 100, 1000, 0, [⟨10, 100, 0, "t1"⟩]⟩
    (mkBuy "t2" "A" (-5) 200 0 1 1) rfl (by decide)
  exact ⟨by decide, h.2.1, h.2.2.2.1⟩

/-- Claim C10: a sell hitting a position with no remaining lots, or carrying
a zero/absent quantity, sells nothing (`soldQuantity = 0`) and leaves
quantity, cost basis, average cost and lots unchanged, yet still lowers
realized P&L by the sell's fee (proceeds are `0 * price - fee`). The
`avg_cost` hypothesis records the consistency `computeHoldings` maintains
between `avg_cost`, `cost_basis` and `quantity` on every tracked position. -/
theorem C10_sell_without_lots_charges_only_fee
    (p : AssetPosition) (tx : Transaction)
    (hty : tx.type = TxType.sell)
    (hcase : p.lots = [] ∨ orZero tx.quantity = 0)
    (havg : p.avg_cost = if 0 < p.quantity then p.cost_basis / p.quantity else 0) :
    soldQuantityOf p tx = 0 ∧
    (applyToPosition tx p).quantity = p.quantity ∧
    (applyToPosition tx p).cost_basis = p.cost_basis ∧
    (applyToPosition tx p).avg_cost = p.avg_cost ∧
    (applyToPosition tx p).lots = p.lots ∧
    (applyToPosition tx p).realized_pnl = p.realized_pnl - tx.fee := by
  have hc : consumeLots (orZero tx.quantity) p.lots = (orZero tx.quantity, 0, p.lots) := by
    rcases hcase with h | h
    · rw [h]; simp [consumeLots]
    · rw [h]; exact consumeLots_nonpos p.lots 0 le_rfl
  unfold applyToPosition
  rw [hty]
  refine ⟨?_, ?_, ?_, ?_, ?_, ?_⟩
  · simp [soldQuantityOf, hc]
  · simp [handleSell, hc]
  · simp [handleSell, hc]
  · simp only [handleSell, hc]
    rw [havg]
    simp
  · simp [handleSell, hc]
  · simp only [handleSell, hc]
    ring_nf

/-- Witness for C10: a sell of 7 units against an empty lot queue with fee 3
only charges the fee. -/
theorem C10_sell_without_lots_charges_only_fee_witness :
    ((⟨"A", "AAA", "Asset A", 0, 0, 0, 50, []⟩ : AssetPosition).lots = [] ∨
      orZero (mkSell "s" "A" 7 150 3 1 1).quantity = 0) ∧
    (soldQuantityOf ⟨"A", "AAA", "Asset A", 0, 0, 0, 50, []⟩ (mkSell "s" "A" 7 150 3 1 1) = 0 ∧
      (applyToPosition (mkSell "s" "A" 7 150 3 1 1)
          ⟨"A", "AAA", "Asset A", 0, 0, 0, 50, []⟩).realized_pnl = 50 - 3) := by
  have h := C10_sell_without_lots_charges_only_fee
    ⟨"A", "AAA", "Asset A", 0, 0, 0, 50, []⟩ (mkSell "s" "A" 7 150 3 1 1)
    rfl (Or.inl rfl) (by decide)
  exact ⟨Or.inl rfl, h.1, h.2.2.2.2.2⟩

/-- Claim C6: the fold order is ascending `trade_date` with ascending
`created_at` as tie-breaker. Two buys share `trade_date` 0 with `created_at`
1 and 2 (the cheap lot entered first); a partial sell of 10 consumes the
earlier-created lot, leaving `cost_basis` 2000. Swapping only the two buys'
`created_at` values makes the expensive lot the first consumed, leaving
`cost_basis` 1000 — a different result. -/
theorem C6_created_at_tie_break_changes_cost_basis :
    sortTx
        [mkBuy "b2" "A" 10 200 0 0 2, mkBuy "b1" "A" 10 100 0 0 1,
          mkSell "s" "A" 10 150 0 5 5] =
      [mkBuy "b1" "A" 10 100 0 0 1, mkBuy "b2" "A" 10 200 0 0 2,
        mkSell "s" "A" 10 150 0 5 5] ∧
    computeHoldings
        [mkBuy "b2" "A" 10 200 0 0 2, mkBuy "b1" "A" 10 100 0 0 1,
          mkSell "s" "A" 10 150 0 5 5] assetsA =
      [⟨"A", "AAA", "Asset A", 10, 200, 2000, 500⟩] ∧
    computeHoldings
        [mkBuy "b2" "A" 10 200 0 0 1, mkBuy "b1" "A" 10 100 0 0 2,
          mkSell "s" "A" 10 150 0 5 5] assetsA =
      [⟨"A", "AAA", "Asset A", 10, 100, 1000, -500⟩] ∧
    ((2000 : ℚ) ≠ 1000) := by
  refine ⟨by decide, by decide, by decide, by decide⟩

/-- Claim C7: for every transaction list and asset lookup, every holding that
`computeHoldings` returns has strictly positive quantity; a position at or
below 0 after the replay (in particular one fully sold down to 0) never
appears in the output. -/
theorem C7_closed_positions_excluded
    (txs : List Transaction) (assets : List (String × AssetInfo)) (h : Holding)
    (hh : h ∈ computeHoldings txs assets) : 0 < h.quantity := by
  unfold computeHoldings at hh
  obtain ⟨p, hp, rfl⟩ := List.mem_map.mp hh
  have hf := List.mem_filter.mp hp
  simpa [toHolding] using of_decide_eq_true hf.2

/-- Witness for C7 at a concrete one-buy history. -/
theorem C7_closed_positions_excluded_witness :
    (⟨"A", "AAA", "Asset A", 10, 100, 1000, 0⟩ : Holding) ∈
        computeHoldings [mkBuy "t1" "A" 10 100 0 0 0] assetsA ∧
      (0 : ℚ) < (⟨"A", "AAA", "Asset A", 10, 100, 1000, 0⟩ : Holding).quantity :=
  ⟨by decide,
    C7_closed_positions_excluded [mkBuy "t1" "A" 10 100 0 0 0] assetsA _ (by decide)⟩

/-- The per-transaction contribution as claim C8 states it: a standalone fee
transaction contributes the `amount` field whenever it is present, else the
`fee` field. (Stated from the claim's words, to be compared against the
source's `investedDelta`, which uses the JavaScript-truthiness fallback
`amount || fee`.) -/
def claimedInvestedDelta (tx : Transaction) : ℚ :=
  match tx.type with
  | .buy => orZero tx.quantity * orZero tx.price + tx.fee
  | .sell => -(orZero tx.quantity * orZero tx.price - tx.fee)
  | .fee =>
    match tx.amount with
    | some a => a
    | none => tx.fee
  | _ => 0

/-- Claim C8 counterexample: a standalone fee transaction with `amount`
present but equal to 0 and `fee = 5` contributes 5 (the fee) in the source,
because `amount || fee` treats a zero amount as absent, while the claim's
"amount if present" rule predicts 0. -/
theorem C8_counterexample_zero_amount_fee_falls_back_to_fee :
    computeInvestedAmount [⟨"f", TxType.fee, "A", none, none, 5, some 0, 0, 0⟩] = 5 ∧
    ([(⟨"f", TxType.fee, "A", none, none, 5, some 0, 0, 0⟩ : Transaction)].map
        claimedInvestedDelta).sum = 0 ∧
    computeInvestedAmount [⟨"f", TxType.fee, "A", none, none, 5, some 0, 0, 0⟩] ≠
      ([(⟨"f", TxType.fee, "A", none, none, 5, some 0, 0, 0⟩ : Transaction)].map
          claimedInvestedDelta).sum := by
  refine ⟨by decide, by decide, by decide⟩

theorem computeInvestedAmount_eq_sum (l : List Transaction) :
    computeInvestedAmount l = (l.map investedDelta).sum := by
  have h : ∀ (l : List Transaction) (a : ℚ),
      l.foldl (fun acc tx => acc + investedDelta tx) a = a + (l.map investedDelta).sum := by
    intro l
    induction l with
    | nil => simp
    | cons tx rest ih =>
      intro a
      simp only [List.foldl_cons, List.map_cons, List.sum_cons, ih]
      ring
  simpa using h l 0

/-- Claim C8 (amended): `computeInvestedAmount` is an order-independent sum
over the transaction list — equal on every permutation of its input — whose
per-transaction contribution is `quantity * price + fee` for a buy, minus
`quantity * price - fee` for a sell, for a standalone fee the `amount` field
when it is present and nonzero, else the `fee` field (the JavaScript
`amount || fee` fallback), and 0 for every other type. -/
theorem C8_amended_order_independent_sum
    (l l' : List Transaction) (hp : l.Perm l') :
    computeInvestedAmount l = computeInvestedAmount l' ∧
    computeInvestedAmount l = (l.map investedDelta).sum ∧
    (∀ tx : Transaction, tx.type = TxType.buy →
      investedDelta tx = orZero tx.quantity * orZero tx.price + tx.fee) ∧
    (∀ tx : Transaction, tx.type = TxType.sell →
      investedDelta tx = -(orZero tx.quantity * orZero tx.price - tx.fee)) ∧
    (∀ tx : Transaction, tx.type = TxType.fee →
      investedDelta tx = if orZero tx.amount = 0 then tx.fee else orZero tx.amount) ∧
    (∀ tx : Transaction,
      tx.type = TxType.dividend ∨ tx.type = TxType.interest ∨ tx.type = TxType.split →
      investedDelta tx = 0) := by
  refine ⟨?_, computeInvestedAmount_eq_sum l, ?_, ?_, ?_, ?_⟩
  · rw [computeInvestedAmount_eq_sum l, computeInvestedAmount_eq_sum l']
    exact (hp.map investedDelta).sum_eq
  · intro tx h
    simp [investedDelta, h]
  · intro tx h
    simp [investedDelta, h]
  · intro tx h
    simp [investedDelta, h]
  · intro tx h
    rcases h with h | h | h <;> simp [investedDelta, h]

/-- Claim C9: transactions whose `asset_id` is empty or unknown to the asset
lookup are silently skipped — filtering them out of the input leaves
`computeHoldings` unchanged, so they contribute nothing to any position —
and every holding in the output names a nonempty `asset_id` that the lookup
resolves. -/
theorem C9_unresolvable_transactions_are_skipped
    (txs : List Transaction) (assets : List (String × AssetInfo)) :
    computeHoldings txs assets =
      computeHoldings (txs.filter (txResolvable assets)) assets ∧
    ∀ h ∈ computeHoldings txs assets,
      h.asset_id ≠ "" ∧ (lookupAsset assets h.asset_id).isSome = true := by
  have hres : posResolvable assets [] := by
    intro p hp
    simp at hp
  constructor
  · unfold computeHoldings replay
    rw [sortTx_filter (txResolvable assets) txs]
    rw [foldl_applyTx_filter_resolvable assets (sortTx txs) [] hres]
  · intro h hh
    unfold computeHoldings at hh
    obtain ⟨p, hp, rfl⟩ := List.mem_map.mp hh
    exact foldl_applyTx_posResolvable assets (sortTx txs) [] hres p
      (List.mem_of_mem_filter hp)

/-- Witness for C9 at a concrete history containing a buy of an unknown
asset "X" and a buy with empty asset id: both are dropped. -/
theorem C9_unresolvable_transactions_are_skipped_witness :
    computeHoldings
        [mkBuy "t1" "A" 10 100 0 0 0, mkBuy "t2" "X" 5 50 0 1 1,
          (⟨"t3", TxType.buy, "", some 5, some 50, 0, none, 2, 2⟩ : Transaction)] assetsA =
      computeHoldings
        ([mkBuy "t1" "A" 10 100 0 0 0, mkBuy "t2" "X" 5 50 0 1 1,
          (⟨"t3", TxType.buy, "", some 5, some 50, 0, none, 2, 2⟩ : Transaction)].filter
          (txResolvable assetsA)) assetsA ∧
    ((⟨"A", "AAA", "Asset A", 10, 100, 1000, 0⟩ : Holding).asset_id ≠ "" ∧
      (lookupAsset assetsA
          (⟨"A", "AAA", "Asset A", 10, 100, 1000, 0⟩ : Holding).asset_id).isSome = true) :=
  ⟨(C9_unresolvable_transactions_are_skipped
      [mkBuy "t1" "A" 10 100 0 0 0, mkBuy "t2" "X" 5 50 0 1 1,
        (⟨"t3", TxType.buy, "", some 5, some 50, 0, none, 2, 2⟩ : Transaction)] assetsA).1,
    (C9_unresolvable_transactions_are_skipped
      [mkBuy "t1" "A" 10 100 0 0 0, mkBuy "t2" "X" 5 50 0 1 1,
        (⟨"t3", TxType.buy, "", some 5, some 50, 0, none, 2, 2⟩ : Transaction)] assetsA).2
      _ (by decide)⟩

/-- Witness for C8 (amended): swapping a buy and a sell leaves the invested
amount unchanged. -/
theorem C8_amended_order_independent_sum_witness :
    ([mkBuy "t1" "A" 10 100 2 0 0, mkSell "t2" "A" 4 150 1 1 1].Perm
        [mkSell "t2" "A" 4 150 1 1 1, mkBuy "t1" "A" 10 100 2 0 0]) ∧
    computeInvestedAmount [mkBuy "t1" "A" 10 100 2 0 0, mkSell "t2" "A" 4 150 1 1 1] =
      computeInvestedAmount [mkSell "t2" "A" 4 150 1 1 1, mkBuy "t1" "A" 10 100 2 0 0] :=
  ⟨List.Perm.swap (mkSell "t2" "A" 4 150 1 1 1) (mkBuy "t1" "A" 10 100 2 0 0) [],
    (C8_amended_order_independent_sum
      [mkBuy "t1" "A" 10 100 2 0 0, mkSell "t2" "A" 4 150 1 1 1]
      [mkSell "t2" "A" 4 150 1 1 1, mkBuy "t1" "A" 10 100 2 0 0]
      (List.Perm.swap (mkSell "t2" "A" 4 150 1 1 1) (mkBuy "t1" "A" 10 100 2 0 0) [])).1⟩

end Finanger
